import Mathlib

/-!
Verification development for the `hankan-write-db` generator
(`generate.py` and `generate_dict.py`): a shallow embedding of the
Unihan record parser, the per-attribute aggregation loops, the value
normalizers, the variant classifier, the corpus assembly in
`setup_database`, the two sorted list queries, and the character
dictionary builder of `generate_dict.py`, together with theorems about
them.

Python strings are modelled as `List Char` (string literals enter as
`"...".toList`).  Python `dict`s keyed by one-character strings are
modelled as insertion-ordered association lists keyed by the
character's Unicode code point (a `Nat`), which is faithful because
`chr`/`ord` are inverse bijections on scalar values.  Fallible Python
code (statements that can raise) is embedded in `Except Unit`.
-/

namespace HankanGen

/-- A Python string, as a list of characters. -/
abbrev PyStr := List Char

/-- A Python dict mapping one-character strings to strings, keyed here by
the character's code point. -/
abbrev PyDict := List (Nat × PyStr)

/-- Python `d[k]` / `k in d`: first (and, for a real dict, only) binding
of the key. -/
def dictGet : PyDict → Nat → Option PyStr
  | [], _ => none
  | (k, v) :: rest, c => if k = c then some v else dictGet rest c

/-- Python `d[k] = v`: replace the value in place if the key is bound,
else append a new binding (insertion order is preserved, as in CPython). -/
def dictInsert : PyDict → Nat → PyStr → PyDict
  | [], k, v => [(k, v)]
  | (k', v') :: rest, k, v =>
    if k' = k then (k, v) :: rest else (k', v') :: dictInsert rest k v

/-- Python `list(d.keys())`. -/
def dictKeys (d : PyDict) : List Nat := d.map Prod.fst

/-- Python `d.get(k, default)`. -/
def dictGetD (d : PyDict) (c : Nat) (dflt : PyStr) : PyStr :=
  (dictGet d c).getD dflt

/-- Python `d1.update(d2)`: insert every binding of `d2` into `d1`, in
`d2`'s order.  A key present in both ends up with `d2`'s value. -/
def dictUpdate (d1 d2 : PyDict) : PyDict :=
  d2.foldl (fun acc p => dictInsert acc p.1 p.2) d1

/-- The repeated accumulation pattern of `generate.py` lines 95-101 /
123-132 and `generate_dict.py` lines 69-72 / 83-87:
`acc = {}` followed by `acc.update(m)` for each per-source parser
result `m`, in listed order. -/
def aggregateFields (maps : List PyDict) : PyDict :=
  maps.foldl dictUpdate []

/-- The first of two options that is `some`, if any.  (`b` wins over `a`
exactly when Python's `a.update(b)` would let it.) -/
def firstSome {α : Type} (a b : Option α) : Option α :=
  match a with
  | some v => some v
  | none => b

/-- Whitespace for Python `str.strip()` / `str.split()`.  (Python also
treats `\x0b`, `\x0c` and some Unicode spaces as whitespace; none of
those occur in the data and they are not modelled.) -/
def isPySpace (c : Char) : Bool := c.isWhitespace

/-- Python `s.strip()`. -/
def pyStrip (s : PyStr) : PyStr :=
  ((s.dropWhile isPySpace).reverse.dropWhile isPySpace).reverse

/-- Python `s.split(sep)` for a one-character separator: split at every
occurrence, keeping empty pieces.  The result is always non-empty. -/
def pySplitChar (sep : Char) : PyStr → List PyStr
  | [] => [[]]
  | c :: rest =>
    match pySplitChar sep rest with
    | [] => [[]]
    | h :: t => if c = sep then [] :: h :: t else (c :: h) :: t

/-- Helper for `pySplitWs`: `acc` holds the current token, reversed. -/
def pySplitWsAux : PyStr → PyStr → List PyStr
  | [], acc => if acc.isEmpty then [] else [acc.reverse]
  | c :: rest, acc =>
    if isPySpace c then
      if acc.isEmpty then pySplitWsAux rest []
      else acc.reverse :: pySplitWsAux rest []
    else pySplitWsAux rest (c :: acc)

/-- Python `s.split()` with no argument: runs of whitespace separate
tokens and empty tokens are never produced. -/
def pySplitWs (s : PyStr) : List PyStr := pySplitWsAux s []

/-- Python `s.startswith(p)`. -/
def pyStartsWith (p s : PyStr) : Bool := s.take p.length == p

/-- A character `int(-, 16)` accepts. -/
def isHexDigitChar (c : Char) : Bool :=
  c.isDigit || ('a' ≤ c && c ≤ 'f') || ('A' ≤ c && c ≤ 'F')

/-- Value of a hexadecimal digit. -/
def hexDigitVal (c : Char) : Nat :=
  if c.isDigit then c.toNat - 48
  else if 'a' ≤ c then c.toNat - 87
  else c.toNat - 55

/-- Python `int(s, 16)`, which raises `ValueError` on non-hexadecimal
input.  (Python additionally tolerates a sign, a `0x` prefix and
underscore digit grouping; those never occur in Unihan code points and
are not modelled.) -/
def pyIntHex (s : PyStr) : Except Unit Nat :=
  let t := pyStrip s
  if t ≠ [] && t.all isHexDigitChar then
    .ok (t.foldl (fun acc c => acc * 16 + hexDigitVal c) 0)
  else .error ()

/-- Python `chr(n)`, which raises `ValueError` above `0x10FFFF`.  The
result is kept as the code point. -/
def pyChr (n : Nat) : Except Unit Nat :=
  if n ≤ 0x10FFFF then .ok n else .error ()

/-- Python `int(s)` in base 10, as an `Option` because every call site
catches `ValueError`.  (Underscore digit grouping is again not
modelled.) -/
def pyIntDec (s : PyStr) : Option Int :=
  let t := pyStrip s
  match t with
  | '-' :: rest =>
    if rest ≠ [] && rest.all Char.isDigit then
      some (-(rest.foldl (fun acc c => acc * 10 + (c.toNat - 48)) 0 : Nat))
    else none
  | '+' :: rest =>
    if rest ≠ [] && rest.all Char.isDigit then
      some ((rest.foldl (fun acc c => acc * 10 + (c.toNat - 48)) 0 : Nat))
    else none
  | _ =>
    if t ≠ [] && t.all Char.isDigit then
      some ((t.foldl (fun acc c => acc * 10 + (c.toNat - 48)) 0 : Nat))
    else none

/-- One iteration of the line loop of `parse_unihan_file`
(`generate.py` lines 33-48, identically `generate_dict.py` lines
37-50): `none` means the line contributes nothing, `some (k, v)` means
`data[chr(k)] = v` is executed, `error` means the iteration raises
(`int` on non-hex text after `U+`, or `chr` out of range). -/
def lineEffect (field line : PyStr) : Except Unit (Option (Nat × PyStr)) :=
  let l := pyStrip line
  if pyStartsWith ['#'] l || l.isEmpty then .ok none
  else
    let parts := pySplitChar '\t' l
    if parts.length ≥ 3 && parts.getD 1 [] == field then
      let cp := parts.getD 0 []
      if pyStartsWith ['U', '+'] cp then
        match pyIntHex (cp.drop 2) with
        | .error e => .error e
        | .ok n =>
          match pyChr n with
          | .error e => .error e
          | .ok ch => .ok (some (ch, parts.getD 2 []))
      else .ok none
    else .ok none

/-- The line loop of `parse_unihan_file`, threading the accumulated
dict. -/
def parseLines (field : PyStr) (data : PyDict) : List PyStr → Except Unit PyDict
  | [] => .ok data
  | line :: rest =>
    match lineEffect field line with
    | .error e => .error e
    | .ok none => parseLines field data rest
    | .ok (some (k, v)) => parseLines field (dictInsert data k v) rest

/-- `parse_unihan_file` of `generate.py` / `generate_dict.py`, applied
to the lines of one source file. -/
def parse_unihan_file (lines : List PyStr) (field : PyStr) : Except Unit PyDict :=
  parseLines field [] lines

/-- The value contributed for code point `c` by one line, if any:
`some v` exactly when the line's effect is to write `v` under `c`. -/
def lineYield (field : PyStr) (c : Nat) (line : PyStr) : Option PyStr :=
  match lineEffect field line with
  | .ok (some (k, v)) => if k = c then some v else none
  | _ => none

end HankanGen

namespace HankanGen

/-- Pinyin cleanup of `generate_dict.py` lines 106-113: empty raw value
gives the empty string; otherwise truncate at the first comma, take the
first whitespace token (raising `IndexError` when there is none), drop
decimal digits and colons, and strip.  (Python `c.isdigit()` also
accepts non-ASCII decimal digits; only ASCII digits are modelled.) -/
def clean_pinyin (raw : PyStr) : Except Unit PyStr :=
  if raw.isEmpty then .ok []
  else
    match pySplitWs ((pySplitChar ',' raw).getD 0 []) with
    | [] => .error ()
    | t :: _ => .ok (pyStrip (t.filter (fun c => !c.isDigit && c ≠ ':')))

/-- Stroke-count cleanup of `generate.py` lines 150-158, the body of the
`try` block; `ValueError` and `IndexError` are caught there and yield
`None`, so the embedding is total. -/
def normalize_stroke (raw : PyStr) : Option Int :=
  let s := pyStrip raw
  let s' := if s.contains ' ' then (pySplitWs s).getD 0 [] else s
  pyIntDec s'

/-- `is_simplified_chinese` of `generate.py` lines 52-57, on the code
point. -/
def is_simplified_chinese (c : Nat) : Bool :=
  (0x4E00 ≤ c && c ≤ 0x9FFF) || (0x3400 ≤ c && c ≤ 0x4DBF)

/-- The one-character Python string `chr(n)`, for comparison against
variant field values.  (`Char.ofNat` agrees with `chr` on every scalar
value; classification is only ever applied to in-scope code points.) -/
def pyChrStr (n : Nat) : PyStr := [Char.ofNat n]

/-- `char in d and d[char] != char` of `generate.py` lines 161-162. -/
def hasRealVariant (c : Nat) (d : PyDict) : Bool :=
  match dictGet d c with
  | some v => v != pyChrStr c
  | none => false

/-- The classifier of `generate.py` lines 161-174.  The stored integer
tags are: 0 = Traditional-only, 1 = Simplified-only, 2 = Common. -/
def charTypeOf (c : Nat) (simplified_data traditional_data : PyDict) : Nat :=
  if hasRealVariant c simplified_data then 0
  else if hasRealVariant c traditional_data then 1
  else 2

/-- The stroke-count computation of `generate.py` lines 147-158:
`None` unless the raw value is present and truthy, in which case it is
normalized. -/
def strokeCountOf (strokeD : PyDict) (c : Nat) : Option Int :=
  match dictGet strokeD c with
  | some raw => if raw.isEmpty then none else normalize_stroke raw
  | none => none

/-- One row of the `characters` table (`generate.py` lines 68-78 and
185-193).  The `is_simplified` column stores the 0/1/2 type tag. -/
structure CharacterRow where
  char : Nat
  stroke_count : Option Int
  is_simplified : Nat
  traditional_variant : PyStr
  simplified_variant : PyStr
  definition : PyStr
  pinyin : PyStr
deriving DecidableEq

/-- The per-character body of the processing loop of `setup_database`
(`generate.py` lines 147-193).  The only statement that can raise is
`pinyin.split()[0]` on a non-empty all-whitespace raw pinyin value. -/
def processChar (strokeD simpD tradD defD pinD : PyDict) (c : Nat) :
    Except Unit CharacterRow :=
  match (if (dictGetD pinD c []).isEmpty then Except.ok (dictGetD pinD c [])
         else
           match pySplitWs (dictGetD pinD c []) with
           | [] => Except.error ()
           | t :: _ => Except.ok t) with
  | .error e => .error e
  | .ok py =>
    .ok { char := c
          stroke_count := strokeCountOf strokeD c
          is_simplified := charTypeOf c simpD tradD
          traditional_variant := dictGetD tradD c []
          simplified_variant := dictGetD simpD c []
          definition := dictGetD defD c []
          pinyin := py }

/-- The processing loop of `setup_database` over a list of characters. -/
def buildRows (strokeD simpD tradD defD pinD : PyDict) :
    List Nat → Except Unit (List CharacterRow)
  | [] => .ok []
  | c :: rest =>
    match processChar strokeD simpD tradD defD pinD c with
    | .error e => .error e
    | .ok row =>
      match buildRows strokeD simpD tradD defD pinD rest with
      | .error e => .error e
      | .ok rows => .ok (row :: rows)

/-- `all_chars` of `generate.py` lines 135-140: the union of the key
sets of the five aggregated mappings.  (Python iterates a set in an
unspecified order; any duplicate-free enumeration is faithful, and no
downstream artifact depends on the order.) -/
def allCorpusChars (strokeD simpD tradD defD pinD : PyDict) : List Nat :=
  (dictKeys strokeD ++ dictKeys simpD ++ dictKeys tradD ++
    dictKeys defD ++ dictKeys pinD).dedup

/-- The corpus-assembly part of `setup_database` (`generate.py` lines
134-201): every character of the union, restricted by
`is_simplified_chinese`, is turned into a table row. -/
def setup_database (strokeD simpD tradD defD pinD : PyDict) :
    Except Unit (List CharacterRow) :=
  buildRows strokeD simpD tradD defD pinD
    ((allCorpusChars strokeD simpD tradD defD pinD).filter is_simplified_chinese)

/-- Sort key of `ORDER BY stroke_count ASC, char ASC` (the rows reaching
the sort all have a non-NULL stroke count, so the default value is
irrelevant; `char ASC` on one-character TEXT is code point order). -/
def rowKey (r : CharacterRow) : Int × Nat :=
  (r.stroke_count.getD 0, r.char)

/-- Non-strict lexicographic order on `rowKey`, as used by the SQL sort. -/
def rowLE (a b : CharacterRow) : Prop :=
  (rowKey a).1 < (rowKey b).1 ∨
    ((rowKey a).1 = (rowKey b).1 ∧ (rowKey a).2 ≤ (rowKey b).2)

/-- Strict lexicographic order on `rowKey`. -/
def rowLT (a b : CharacterRow) : Prop :=
  (rowKey a).1 < (rowKey b).1 ∨
    ((rowKey a).1 = (rowKey b).1 ∧ (rowKey a).2 < (rowKey b).2)

instance : DecidableRel rowLE := fun a b => by
  unfold rowLE; exact inferInstance

instance : DecidableRel rowLT := fun a b => by
  unfold rowLT; exact inferInstance

instance : IsTotal CharacterRow rowLE :=
  ⟨by intro a b; unfold rowLE; omega⟩

instance : IsTrans CharacterRow rowLE :=
  ⟨by intro a b c; unfold rowLE; omega⟩

/-- `WHERE is_simplified IN (1, 2) AND stroke_count IS NOT NULL` of
`get_characters_from_db` (`generate.py` lines 214-218). -/
def simplifiedRowFilter (r : CharacterRow) : Bool :=
  (r.is_simplified == 1 || r.is_simplified == 2) && r.stroke_count.isSome

/-- `WHERE is_simplified IN (0, 2) AND stroke_count IS NOT NULL` of
`get_traditional_characters_from_db` (`generate.py` lines 231-235). -/
def traditionalRowFilter (r : CharacterRow) : Bool :=
  (r.is_simplified == 0 || r.is_simplified == 2) && r.stroke_count.isSome

/-- The filtered and ordered row sequence behind `SimplifiedList`. -/
def simplifiedRows (rows : List CharacterRow) : List CharacterRow :=
  List.insertionSort rowLE (rows.filter simplifiedRowFilter)

/-- The filtered and ordered row sequence behind `TraditionalList`. -/
def traditionalRows (rows : List CharacterRow) : List CharacterRow :=
  List.insertionSort rowLE (rows.filter traditionalRowFilter)

/-- `get_characters_from_db` of `generate.py` lines 208-223, as a
function of the stored rows. -/
def get_characters_from_db (rows : List CharacterRow) : List Nat :=
  (simplifiedRows rows).map (·.char)

/-- `get_traditional_characters_from_db` of `generate.py` lines
225-240, as a function of the stored rows. -/
def get_traditional_characters_from_db (rows : List CharacterRow) : List Nat :=
  (traditionalRows rows).map (·.char)

/-- The per-character body of the dictionary loop of
`generate_character_dict` (`generate_dict.py` lines 104-118), then the
loop itself; `clean_pinyin` can raise. -/
def buildDict (pinD defD : PyDict) :
    List Nat → Except Unit (List (Nat × PyStr × PyStr))
  | [] => .ok []
  | c :: rest =>
    match clean_pinyin (dictGetD pinD c []) with
    | .error e => .error e
    | .ok p =>
      match buildDict pinD defD rest with
      | .error e => .error e
      | .ok t => .ok ((c, p, dictGetD defD c []) :: t)

/-- `generate_character_dict`'s dictionary assembly (`generate_dict.py`
lines 99-118): the key universe is the union of the pinyin and
definition key sets, with no further filtering. -/
def generate_character_dict (pinD defD : PyDict) :
    Except Unit (List (Nat × PyStr × PyStr)) :=
  buildDict pinD defD ((dictKeys pinD ++ dictKeys defD).dedup)

/-- Modelled from the spec: pinyin normalization as §4.3 words it —
truncate at the first comma, keep the first whitespace-delimited token,
strip decimal digits and the colon, trim; empty input yields empty
output.  (`none` when no token exists, where the spec is silent.) -/
def pinyinNormSpec (raw : PyStr) : Option PyStr :=
  if raw.isEmpty then some []
  else
    match pySplitWs ((pySplitChar ',' raw).getD 0 []) with
    | [] => none
    | t :: _ => some (pyStrip (t.filter (fun c => !c.isDigit && c ≠ ':')))

/-- Modelled from the spec: stroke-count normalization as §4.3 words it —
strip, take the first whitespace-delimited token when a space is
present, parse as a base-10 integer, absent on parse failure. -/
def strokeNormSpec (raw : PyStr) : Option Int :=
  let s := pyStrip raw
  if s.contains ' ' then pyIntDec ((pySplitWs s).getD 0 [])
  else pyIntDec s

end HankanGen

deriving instance DecidableEq for Except

namespace HankanGen

theorem dictGet_dictInsert (d : PyDict) (k c : Nat) (v : PyStr) :
    dictGet (dictInsert d k v) c = if k = c then some v else dictGet d c := by
  induction d with
  | nil => simp [dictInsert, dictGet]
  | cons p rest ih =>
    obtain ⟨k', v'⟩ := p
    by_cases h : k' = k
    · subst h
      by_cases hc : k' = c <;> simp [dictInsert, dictGet, hc]
    · by_cases hc : k' = c
      · subst hc
        have h2 : k ≠ k' := fun e => h e.symm
        simp [dictInsert, dictGet, h, h2]
      · simp [dictInsert, dictGet, h, hc, ih]

theorem dictGet_eq_none (d : PyDict) (c : Nat) (h : c ∉ dictKeys d) :
    dictGet d c = none := by
  induction d with
  | nil => rfl
  | cons p rest ih =>
    obtain ⟨k, v⟩ := p
    simp only [dictKeys, List.map_cons, List.mem_cons, not_or] at h
    have hk : k ≠ c := fun e => h.1 e.symm
    simp only [dictGet, if_neg hk]
    exact ih h.2

theorem dictGet_dictUpdate (d1 d2 : PyDict) (c : Nat)
    (h : (dictKeys d2).Nodup) :
    dictGet (dictUpdate d1 d2) c = firstSome (dictGet d2 c) (dictGet d1 c) := by
  induction d2 generalizing d1 with
  | nil => simp [dictUpdate, dictGet, firstSome]
  | cons p rest ih =>
    obtain ⟨k, v⟩ := p
    simp only [dictKeys, List.map_cons, List.nodup_cons] at h
    have step : dictUpdate d1 ((k, v) :: rest) = dictUpdate (dictInsert d1 k v) rest := rfl
    rw [step, ih (dictInsert d1 k v) h.2]
    by_cases hc : k = c
    · subst hc
      have hnone : dictGet rest k = none := dictGet_eq_none rest k h.1
      simp [dictGet, firstSome, hnone, dictGet_dictInsert]
    · simp [dictGet, firstSome, hc, dictGet_dictInsert]

theorem dictGet_foldl_dictUpdate (maps : List PyDict) (d0 : PyDict) (c : Nat)
    (h : ∀ m ∈ maps, (dictKeys m).Nodup) :
    dictGet (maps.foldl dictUpdate d0) c =
      maps.foldl (fun acc m => firstSome (dictGet m c) acc) (dictGet d0 c) := by
  induction maps generalizing d0 with
  | nil => rfl
  | cons m rest ih =>
    simp only [List.foldl_cons]
    rw [ih (dictUpdate d0 m) (fun x hx => h x (List.mem_cons_of_mem _ hx)),
      dictGet_dictUpdate d0 m c (h m (List.mem_cons_self _ _))]

theorem dictGet_parseLines (field : PyStr) (lines : List PyStr) (d0 d : PyDict)
    (c : Nat) (h : parseLines field d0 lines = .ok d) :
    dictGet d c =
      lines.foldl (fun acc l => firstSome (lineYield field c l) acc) (dictGet d0 c) := by
  induction lines generalizing d0 with
  | nil =>
    simp only [parseLines, Except.ok.injEq] at h
    subst h; rfl
  | cons line rest ih =>
    simp only [parseLines] at h
    cases heff : lineEffect field line with
    | error e => rw [heff] at h; cases h
    | ok o =>
      cases o with
      | none =>
        rw [heff] at h
        have := ih d0 h
        simpa [lineYield, heff, firstSome] using this
      | some kv =>
        obtain ⟨k, v⟩ := kv
        rw [heff] at h
        have := ih (dictInsert d0 k v) h
        rw [this, dictGet_dictInsert]
        by_cases hc : k = c <;> simp [lineYield, heff, firstSome, hc]

theorem processChar_fields (strokeD simpD tradD defD pinD : PyDict) (c : Nat)
    (row : CharacterRow)
    (h : processChar strokeD simpD tradD defD pinD c = .ok row) :
    row.char = c ∧ row.stroke_count = strokeCountOf strokeD c ∧
      row.is_simplified = charTypeOf c simpD tradD := by
  unfold processChar at h
  split at h
  · cases h
  · injection h with h'
    subst h'
    exact ⟨rfl, rfl, rfl⟩

theorem buildRows_map_char (strokeD simpD tradD defD pinD : PyDict)
    (cs : List Nat) (rows : List CharacterRow)
    (h : buildRows strokeD simpD tradD defD pinD cs = .ok rows) :
    rows.map (·.char) = cs := by
  induction cs generalizing rows with
  | nil =>
    simp only [buildRows, Except.ok.injEq] at h
    subst h; rfl
  | cons c rest ih =>
    simp only [buildRows] at h
    cases hp : processChar strokeD simpD tradD defD pinD c with
    | error e => rw [hp] at h; cases h
    | ok row =>
      rw [hp] at h
      cases hb : buildRows strokeD simpD tradD defD pinD rest with
      | error e => rw [hb] at h; cases h
      | ok rows' =>
        rw [hb] at h
        injection h with h'
        subst h'
        simp [ih rows' hb, (processChar_fields _ _ _ _ _ _ _ hp).1]

theorem buildRows_mem (strokeD simpD tradD defD pinD : PyDict)
    (cs : List Nat) (rows : List CharacterRow)
    (h : buildRows strokeD simpD tradD defD pinD cs = .ok rows)
    (r : CharacterRow) (hr : r ∈ rows) :
    r.char ∈ cs ∧ processChar strokeD simpD tradD defD pinD r.char = .ok r := by
  induction cs generalizing rows with
  | nil =>
    simp only [buildRows, Except.ok.injEq] at h
    subst h; cases hr
  | cons c rest ih =>
    simp only [buildRows] at h
    cases hp : processChar strokeD simpD tradD defD pinD c with
    | error e => rw [hp] at h; cases h
    | ok row =>
      rw [hp] at h
      cases hb : buildRows strokeD simpD tradD defD pinD rest with
      | error e => rw [hb] at h; cases h
      | ok rows' =>
        rw [hb] at h
        injection h with h'
        subst h'
        rcases List.mem_cons.mp hr with hr1 | hr2
        · subst hr1
          have hc := (processChar_fields _ _ _ _ _ _ _ hp).1
          exact ⟨by rw [hc]; exact List.mem_cons_self _ _, by rw [hc]; exact hp⟩
        · have := ih rows' hb hr2
          exact ⟨List.mem_cons_of_mem _ this.1, this.2⟩

theorem buildDict_mem (pinD defD : PyDict) (cs : List Nat)
    (out : List (Nat × PyStr × PyStr)) (h : buildDict pinD defD cs = .ok out)
    (c : Nat) (p m : PyStr) (hm : (c, p, m) ∈ out) :
    c ∈ cs ∧ clean_pinyin (dictGetD pinD c []) = .ok p ∧ m = dictGetD defD c [] := by
  induction cs generalizing out with
  | nil =>
    simp only [buildDict, Except.ok.injEq] at h
    subst h; cases hm
  | cons c' rest ih =>
    simp only [buildDict] at h
    cases hp : clean_pinyin (dictGetD pinD c' []) with
    | error e => rw [hp] at h; cases h
    | ok p' =>
      rw [hp] at h
      cases hb : buildDict pinD defD rest with
      | error e => rw [hb] at h; cases h
      | ok out' =>
        rw [hb] at h
        injection h with h'
        subst h'
        rcases List.mem_cons.mp hm with hm1 | hm2
        · simp only [Prod.mk.injEq] at hm1
          obtain ⟨e1, e2, e3⟩ := hm1
          subst e1; subst e2; subst e3
          exact ⟨List.mem_cons_self _ _, hp, rfl⟩
        · have := ih out' hb hm2
          exact ⟨List.mem_cons_of_mem _ this.1, this.2⟩

theorem buildDict_covers (pinD defD : PyDict) (cs : List Nat)
    (out : List (Nat × PyStr × PyStr)) (h : buildDict pinD defD cs = .ok out)
    (c : Nat) (hc : c ∈ cs) : ∃ p m, (c, p, m) ∈ out := by
  induction cs generalizing out with
  | nil => cases hc
  | cons c' rest ih =>
    simp only [buildDict] at h
    cases hp : clean_pinyin (dictGetD pinD c' []) with
    | error e => rw [hp] at h; cases h
    | ok p' =>
      rw [hp] at h
      cases hb : buildDict pinD defD rest with
      | error e => rw [hb] at h; cases h
      | ok out' =>
        rw [hb] at h
        injection h with h'
        subst h'
        rcases List.mem_cons.mp hc with hc1 | hc2
        · subst hc1
          exact ⟨p', dictGetD defD c [], List.mem_cons_self _ _⟩
        · obtain ⟨p, m, hpm⟩ := ih out' hb hc2
          exact ⟨p, m, List.mem_cons_of_mem _ hpm⟩

theorem rowLE_and_char_ne_imp_rowLT {a b : CharacterRow}
    (hle : rowLE a b) (hne : a.char ≠ b.char) : rowLT a b := by
  unfold rowLE at hle
  unfold rowLT
  have h2 : (rowKey a).2 = a.char := rfl
  have h3 : (rowKey b).2 = b.char := rfl
  rw [h2, h3] at hle ⊢
  rcases hle with h | ⟨h, h'⟩
  · exact Or.inl h
  · exact Or.inr ⟨h, lt_of_le_of_ne h' hne⟩

theorem pairwise_rowLT_of_nodup (l : List CharacterRow)
    (h : (l.map (fun r => r.char)).Nodup) :
    (List.insertionSort rowLE l).Pairwise rowLT := by
  have hs : (List.insertionSort rowLE l).Pairwise rowLE :=
    List.sorted_insertionSort rowLE l
  have hp : List.Perm ((List.insertionSort rowLE l).map (fun r => r.char))
      (l.map (fun r => r.char)) :=
    (List.perm_insertionSort rowLE l).map _
  have hn : ((List.insertionSort rowLE l).map (fun r => r.char)).Nodup :=
    hp.nodup_iff.mpr h
  have hne : (List.insertionSort rowLE l).Pairwise (fun a b => a.char ≠ b.char) :=
    List.pairwise_map.mp hn
  exact (hs.and hne).imp (fun hx => rowLE_and_char_ne_imp_rowLT hx.1 hx.2)

theorem nodup_filter_map_char (rows : List CharacterRow)
    (f : CharacterRow → Bool) (h : (rows.map (fun r => r.char)).Nodup) :
    ((rows.filter f).map (fun r => r.char)).Nodup :=
  List.Nodup.sublist (List.Sublist.map _ (List.filter_sublist rows)) h

end HankanGen

namespace HankanGen

/-- Claim C2: the core does NOT complete on every input.  A source line
whose codepoint column starts with `U+` but continues with
non-hexadecimal text makes `int(unicode_point[2:], 16)` raise
`ValueError` inside `parse_unihan_file` (there is no try/except around
it), and a raw pinyin value whose portion before the first comma has no
whitespace-delimited token makes `raw_pinyin.split(',')[0].split()[0]`
raise `IndexError` in `generate_character_dict`; both abort the run
instead of degrading to missing data for one character.  This theorem
evaluates the embedded code at both failing inputs. -/
theorem claimC2_fatal_exceptions :
    parse_unihan_file ["U+XYZ\tkTotalStrokes\t5".toList] "kTotalStrokes".toList
        = .error () ∧
      clean_pinyin ",x".toList = .error () :=
  ⟨by decide, by decide⟩

/-- Claim C1, counterexample: with source A mapping X (here 中, U+4E2D)
to "5" followed by source B mapping X to "7", the aggregation loop
(`dict.update`) yields "7", not "5" — the claimed first-writer-wins
precedence is false at this input. -/
theorem claimC1_counterexample :
    dictGet (aggregateFields [[(0x4E2D, "5".toList)], [(0x4E2D, "7".toList)]])
        0x4E2D ≠ some "5".toList := by
  decide

/-- Claim C1, amended: the Field Aggregator merges the per-source
parser mappings with LAST-writer-wins precedence — for every ordered
list of well-formed mappings, the aggregated value of a key is the
value contributed by the last mapping that binds it (a character
already present in the accumulated mapping IS replaced by a later
pair's value); in particular A (X → "5") then B (X → "7") aggregates X
to "7". -/
theorem claimC1_aggregator_last_writer_wins :
    (∀ maps : List PyDict, (∀ m ∈ maps, (dictKeys m).Nodup) → ∀ k,
      dictGet (aggregateFields maps) k =
        maps.foldl (fun acc m => firstSome (dictGet m k) acc) none) ∧
      dictGet (aggregateFields [[(0x4E2D, "5".toList)], [(0x4E2D, "7".toList)]])
          0x4E2D = some "7".toList := by
  constructor
  · intro maps h k
    have hfold := dictGet_foldl_dictUpdate maps [] k h
    simpa [aggregateFields, dictGet] using hfold
  · decide

/-- Witness for the amended C1 theorem at a concrete source list. -/
theorem claimC1_witness :
    dictGet (aggregateFields
        [[(0x4E00, "3".toList)], [(0x4E00, "9".toList)], [(0x4E8C, "4".toList)]])
        0x4E00 =
      [[(0x4E00, "3".toList)], [(0x4E00, "9".toList)], [(0x4E8C, "4".toList)]].foldl
        (fun acc m => firstSome (dictGet m 0x4E00) acc) none :=
  claimC1_aggregator_last_writer_wins.1 _ (by decide) 0x4E00

/-- Claim C7, counterexample: the claim's clause that within-file
duplicates resolve "opposite to the cross-file first-writer-wins rule
of the aggregator" is false, because the aggregator is not
first-writer-wins: with sources [{二 → "a"}, {二 → "b"}] the aggregated
value is "b", not "a". -/
theorem claimC7_counterexample :
    dictGet (aggregateFields [[(0x4E8C, "a".toList)], [(0x4E8C, "b".toList)]])
        0x4E8C ≠ some "a".toList := by
  decide

/-- Claim C7, amended: within one source file, when the same codepoint
appears on multiple lines matching the requested field name, the Record
Parser keeps the last occurrence (overwrite semantics); this matches,
rather than opposes, the aggregator's cross-file rule, which is also
last-writer-wins.  The general conjunct characterises the parsed value
of any code point as the yield of the last matching line; the concrete
conjunct shows a duplicated codepoint resolving to the later value. -/
theorem claimC7_parser_last_occurrence_wins :
    (∀ (lines : List PyStr) (field : PyStr) (d : PyDict) (c : Nat),
      parse_unihan_file lines field = .ok d →
      dictGet d c =
        lines.foldl (fun acc l => firstSome (lineYield field c l) acc) none) ∧
      parse_unihan_file
          ["U+4E00\tkTotalStrokes\t5".toList, "U+4E00\tkTotalStrokes\t7".toList]
          "kTotalStrokes".toList = .ok [(0x4E00, "7".toList)] := by
  constructor
  · intro lines field d c h
    have hch := dictGet_parseLines field lines [] d c h
    simpa [dictGet] using hch
  · decide

/-- Witness for the amended C7 theorem at a concrete two-line file. -/
theorem claimC7_witness :
    dictGet [(0x4E00, "7".toList)] 0x4E00 =
      ["U+4E00\tkTotalStrokes\t5".toList, "U+4E00\tkTotalStrokes\t7".toList].foldl
        (fun acc l => firstSome (lineYield "kTotalStrokes".toList 0x4E00 l) acc)
        none :=
  claimC7_parser_last_occurrence_wins.1
    ["U+4E00\tkTotalStrokes\t5".toList, "U+4E00\tkTotalStrokes\t7".toList]
    "kTotalStrokes".toList [(0x4E00, "7".toList)] 0x4E00 (by decide)

theorem hasRealVariant_iff (c : Nat) (d : PyDict) :
    hasRealVariant c d = true ↔ ∃ v, dictGet d c = some v ∧ v ≠ pyChrStr c := by
  unfold hasRealVariant
  cases h : dictGet d c <;> simp [h, bne_iff_ne]

/-- Claim C3: the Variant Classifier returns Traditional-only (tag 0)
exactly when a simplified-variant value is present and differs from the
character itself; otherwise Simplified-only (tag 1) exactly when a
traditional-variant value is present and differs from the character;
otherwise Common (tag 2).  A variant value equal to the character's own
one-character string counts as no real variant, and a character with
both distinct variant values classifies as Traditional-only by the
check order (concrete conjuncts). -/
theorem claimC3_variant_classifier :
    (∀ (c : Nat) (sd td : PyDict),
      (charTypeOf c sd td = 0 ↔ ∃ v, dictGet sd c = some v ∧ v ≠ pyChrStr c) ∧
      (charTypeOf c sd td = 1 ↔
        ((¬ ∃ v, dictGet sd c = some v ∧ v ≠ pyChrStr c) ∧
          ∃ v, dictGet td c = some v ∧ v ≠ pyChrStr c)) ∧
      (charTypeOf c sd td = 2 ↔
        ((¬ ∃ v, dictGet sd c = some v ∧ v ≠ pyChrStr c) ∧
          ¬ ∃ v, dictGet td c = some v ∧ v ≠ pyChrStr c))) ∧
      charTypeOf 0x4E00 [(0x4E00, "U+4E8C".toList)] [] = 0 ∧
      charTypeOf 0x4E00 [(0x4E00, "一".toList)] [(0x4E00, "一".toList)] = 2 ∧
      charTypeOf 0x4E2D [(0x4E2D, "a".toList)] [(0x4E2D, "b".toList)] = 0 := by
  refine ⟨?_, by decide, by decide, by decide⟩
  intro c sd td
  simp only [← hasRealVariant_iff]
  unfold charTypeOf
  by_cases h1 : hasRealVariant c sd <;> by_cases h2 : hasRealVariant c td <;>
    simp [h1, h2]

/-- Claim C5: pinyin normalization truncates at the first comma, keeps
the first whitespace-delimited token of the remainder, strips decimal
digits and the colon, and trims; empty input yields empty output;
"zhong1,zhong4" normalizes to "zhong" and "hao3" to "hao".  The general
conjunct matches the code against the specification-worded
`pinyinNormSpec` on all successful outcomes (the sole divergence, a
tokenless non-empty input, raises and is covered by the C2 theorem). -/
theorem claimC5_pinyin_normalization :
    (∀ (raw p : PyStr), clean_pinyin raw = .ok p ↔ pinyinNormSpec raw = some p) ∧
      clean_pinyin "zhong1,zhong4".toList = .ok "zhong".toList ∧
      clean_pinyin "hao3".toList = .ok "hao".toList ∧
      clean_pinyin [] = .ok [] := by
  refine ⟨?_, by decide, by decide, by decide⟩
  intro raw p
  unfold clean_pinyin pinyinNormSpec
  by_cases h : raw.isEmpty
  · simp [h]
  · simp only [h, Bool.false_eq_true, if_false]
    cases ht : pySplitWs ((pySplitChar ',' raw).getD 0 []) <;> simp

/-- Claim C6: stroke-count normalization strips the raw value, takes
only the first whitespace-delimited token when a space is present, and
parses it as a base-10 integer, yielding an absent stroke count (never
an exception — the code catches ValueError/IndexError) on parse
failure; "5 7" normalizes to 5 and "abc" to absent.  The general
conjunct matches the code against the specification-worded
`strokeNormSpec` on every input. -/
theorem claimC6_stroke_normalization :
    (∀ raw : PyStr, normalize_stroke raw = strokeNormSpec raw) ∧
      normalize_stroke "5 7".toList = some 5 ∧
      normalize_stroke "abc".toList = none := by
  refine ⟨?_, by decide, by decide⟩
  intro raw
  simp only [normalize_stroke, strokeNormSpec, apply_ite]
  split <;> simp

end HankanGen

namespace HankanGen

theorem setup_database_row_fields (strokeD simpD tradD defD pinD : PyDict)
    (rows : List CharacterRow)
    (h : setup_database strokeD simpD tradD defD pinD = .ok rows)
    (r : CharacterRow) (hr : r ∈ rows) :
    r.stroke_count = strokeCountOf strokeD r.char ∧
      r.is_simplified = charTypeOf r.char simpD tradD ∧
      is_simplified_chinese r.char = true := by
  unfold setup_database at h
  have hm := buildRows_mem _ _ _ _ _ _ _ h r hr
  have hf := processChar_fields _ _ _ _ _ _ _ hm.2
  exact ⟨hf.2.1, hf.2.2, (List.mem_filter.mp hm.1).2⟩

theorem setup_database_char_nodup (strokeD simpD tradD defD pinD : PyDict)
    (rows : List CharacterRow)
    (h : setup_database strokeD simpD tradD defD pinD = .ok rows) :
    (rows.map (fun r => r.char)).Nodup := by
  unfold setup_database at h
  rw [buildRows_map_char _ _ _ _ _ _ _ h]
  exact List.Nodup.filter _ (List.nodup_dedup _)

/-- Claim C4: every character in the simplified list has type tag 1
(Simplified-only) or 2 (Common) under the classifier and a present
stroke count; symmetrically the traditional list requires tag 0
(Traditional-only) or 2; and both underlying row sequences are strictly
sorted by ascending stroke count with ties broken by ascending code
point, the projected character lists containing no duplicates. -/
theorem claimC4_list_invariants :
    ∀ (strokeD simpD tradD defD pinD : PyDict) (rows : List CharacterRow),
      setup_database strokeD simpD tradD defD pinD = .ok rows →
      (∀ c ∈ get_characters_from_db rows,
        (charTypeOf c simpD tradD = 1 ∨ charTypeOf c simpD tradD = 2) ∧
          (strokeCountOf strokeD c).isSome = true) ∧
      (∀ c ∈ get_traditional_characters_from_db rows,
        (charTypeOf c simpD tradD = 0 ∨ charTypeOf c simpD tradD = 2) ∧
          (strokeCountOf strokeD c).isSome = true) ∧
      (simplifiedRows rows).Pairwise rowLT ∧
      (traditionalRows rows).Pairwise rowLT ∧
      (get_characters_from_db rows).Nodup ∧
      (get_traditional_characters_from_db rows).Nodup := by
  intro strokeD simpD tradD defD pinD rows h
  have hnodup := setup_database_char_nodup _ _ _ _ _ _ h
  refine ⟨?_, ?_, ?_, ?_, ?_, ?_⟩
  · intro c hc
    unfold get_characters_from_db simplifiedRows at hc
    obtain ⟨r, hr, hrc⟩ := List.mem_map.mp hc
    obtain ⟨hr2, hf⟩ := List.mem_filter.mp ((List.mem_insertionSort rowLE).mp hr)
    obtain ⟨hs, ht, _⟩ := setup_database_row_fields _ _ _ _ _ _ h r hr2
    subst hrc
    unfold simplifiedRowFilter at hf
    simp only [Bool.and_eq_true, Bool.or_eq_true, beq_iff_eq] at hf
    rw [← ht, ← hs]
    exact hf
  · intro c hc
    unfold get_traditional_characters_from_db traditionalRows at hc
    obtain ⟨r, hr, hrc⟩ := List.mem_map.mp hc
    obtain ⟨hr2, hf⟩ := List.mem_filter.mp ((List.mem_insertionSort rowLE).mp hr)
    obtain ⟨hs, ht, _⟩ := setup_database_row_fields _ _ _ _ _ _ h r hr2
    subst hrc
    unfold traditionalRowFilter at hf
    simp only [Bool.and_eq_true, Bool.or_eq_true, beq_iff_eq] at hf
    rw [← ht, ← hs]
    exact hf
  · unfold simplifiedRows
    exact pairwise_rowLT_of_nodup _ (nodup_filter_map_char rows simplifiedRowFilter hnodup)
  · unfold traditionalRows
    exact pairwise_rowLT_of_nodup _ (nodup_filter_map_char rows traditionalRowFilter hnodup)
  · unfold get_characters_from_db simplifiedRows
    have hp : List.Perm
        ((List.insertionSort rowLE (rows.filter simplifiedRowFilter)).map (fun r => r.char))
        ((rows.filter simplifiedRowFilter).map (fun r => r.char)) :=
      (List.perm_insertionSort rowLE _).map _
    exact hp.nodup_iff.mpr (nodup_filter_map_char rows simplifiedRowFilter hnodup)
  · unfold get_traditional_characters_from_db traditionalRows
    have hp : List.Perm
        ((List.insertionSort rowLE (rows.filter traditionalRowFilter)).map (fun r => r.char))
        ((rows.filter traditionalRowFilter).map (fun r => r.char)) :=
      (List.perm_insertionSort rowLE _).map _
    exact hp.nodup_iff.mpr (nodup_filter_map_char rows traditionalRowFilter hnodup)

/-- Concrete stroke source for the claim witnesses. -/
def exStrokeD : PyDict :=
  [(0x4E00, "1".toList), (0x4E8C, "2".toList), (0x1F600, "5".toList)]

/-- Concrete simplified-variant source for the claim witnesses. -/
def exSimpD : PyDict := [(0x4E00, "U+4E8C".toList), (0x1F600, "U+4E8C".toList)]

/-- Concrete definition source for the claim witnesses. -/
def exDefD : PyDict := [(0x1F600, "grin".toList)]

/-- Concrete pinyin source for the claim witnesses. -/
def exPinD : PyDict := [(0x1F600, "ha1".toList)]

/-- The rows `setup_database` produces from the example sources. -/
def exRows : List CharacterRow :=
  [{ char := 0x4E8C, stroke_count := some 2, is_simplified := 2,
     traditional_variant := [], simplified_variant := [],
     definition := [], pinyin := [] },
   { char := 0x4E00, stroke_count := some 1, is_simplified := 0,
     traditional_variant := [], simplified_variant := "U+4E8C".toList,
     definition := [], pinyin := [] }]

/-- Witness for the C4 theorem at the concrete example corpus. -/
theorem claimC4_witness :
    (charTypeOf 0x4E8C exSimpD [] = 1 ∨ charTypeOf 0x4E8C exSimpD [] = 2) ∧
      (strokeCountOf exStrokeD 0x4E8C).isSome = true :=
  (claimC4_list_invariants exStrokeD exSimpD [] exDefD exPinD exRows
    (by decide)).1 0x4E8C (by decide)

/-- Claim C8: every character whose code point lies outside both
inclusive ranges 0x4E00-0x9FFF and 0x3400-0x4DBF is dropped entirely
from the corpus rows, hence from both output lists, whatever attribute
data it has. -/
theorem claimC8_scope_filter :
    ∀ (strokeD simpD tradD defD pinD : PyDict) (rows : List CharacterRow)
      (c : Nat),
      setup_database strokeD simpD tradD defD pinD = .ok rows →
      is_simplified_chinese c = false →
      c ∉ rows.map (fun r => r.char) ∧
        c ∉ get_characters_from_db rows ∧
        c ∉ get_traditional_characters_from_db rows := by
  intro strokeD simpD tradD defD pinD rows c h hc
  have hnot : c ∉ rows.map (fun r => r.char) := by
    intro hmem
    obtain ⟨r, hr, hrc⟩ := List.mem_map.mp hmem
    have hin := (setup_database_row_fields _ _ _ _ _ _ h r hr).2.2
    rw [hrc] at hin
    rw [hin] at hc
    exact Bool.noConfusion hc
  refine ⟨hnot, ?_, ?_⟩
  · intro hmem
    unfold get_characters_from_db simplifiedRows at hmem
    obtain ⟨r, hr, hrc⟩ := List.mem_map.mp hmem
    obtain ⟨hr2, _⟩ := List.mem_filter.mp ((List.mem_insertionSort rowLE).mp hr)
    exact hnot (List.mem_map.mpr ⟨r, hr2, hrc⟩)
  · intro hmem
    unfold get_traditional_characters_from_db traditionalRows at hmem
    obtain ⟨r, hr, hrc⟩ := List.mem_map.mp hmem
    obtain ⟨hr2, _⟩ := List.mem_filter.mp ((List.mem_insertionSort rowLE).mp hr)
    exact hnot (List.mem_map.mpr ⟨r, hr2, hrc⟩)

/-- Witness for the C8 theorem: code point 0x1F600, although given
stroke, variant, definition and pinyin data by the example sources, is
excluded from the corpus and from both lists. -/
theorem claimC8_witness :
    0x1F600 ∉ exRows.map (fun r => r.char) ∧
      0x1F600 ∉ get_characters_from_db exRows ∧
      0x1F600 ∉ get_traditional_characters_from_db exRows :=
  claimC8_scope_filter exStrokeD exSimpD [] exDefD exPinD exRows 0x1F600
    (by decide) (by decide)

/-- Claim C9: the character dictionary's key set is exactly the union
of the characters of the aggregated pinyin and definition mappings —
no Unicode-range restriction, no stroke-count requirement, no
variant-class filtering — and every entry carries the normalized
(possibly empty) pinyin and the (possibly empty) definition. -/
theorem claimC9_dictionary_universe :
    ∀ (pinD defD : PyDict) (out : List (Nat × PyStr × PyStr)),
      generate_character_dict pinD defD = .ok out →
      (∀ c, (∃ p m, (c, p, m) ∈ out) ↔ (c ∈ dictKeys pinD ∨ c ∈ dictKeys defD)) ∧
      (∀ (c : Nat) (p m : PyStr), (c, p, m) ∈ out →
        clean_pinyin (dictGetD pinD c []) = .ok p ∧ m = dictGetD defD c []) := by
  intro pinD defD out h
  unfold generate_character_dict at h
  constructor
  · intro c
    constructor
    · rintro ⟨p, m, hm⟩
      have hmem := (buildDict_mem pinD defD _ out h c p m hm).1
      rw [List.mem_dedup, List.mem_append] at hmem
      exact hmem
    · intro hc
      refine buildDict_covers pinD defD _ out h c ?_
      rw [List.mem_dedup, List.mem_append]
      exact hc
  · intro c p m hm
    exact (buildDict_mem pinD defD _ out h c p m hm).2

/-- Witness for the C9 theorem: the out-of-range character 0x1F600 is
keyed in the dictionary with its normalized pinyin and definition. -/
theorem claimC9_witness :
    clean_pinyin (dictGetD exPinD 0x1F600 []) = .ok "ha".toList ∧
      "grin".toList = dictGetD exDefD 0x1F600 [] :=
  (claimC9_dictionary_universe exPinD exDefD
      [(0x1F600, "ha".toList, "grin".toList)] (by decide)).2
    0x1F600 "ha".toList "grin".toList (by decide)

/-- Claim C10: every corpus character classified Common (tag 2) with a
present stroke count appears in both the simplified and the traditional
list, so the two lists overlap rather than partition the corpus. -/
theorem claimC10_common_in_both_lists :
    ∀ (strokeD simpD tradD defD pinD : PyDict) (rows : List CharacterRow)
      (r : CharacterRow),
      setup_database strokeD simpD tradD defD pinD = .ok rows →
      r ∈ rows →
      charTypeOf r.char simpD tradD = 2 →
      (strokeCountOf strokeD r.char).isSome = true →
      r.char ∈ get_characters_from_db rows ∧
        r.char ∈ get_traditional_characters_from_db rows := by
  intro strokeD simpD tradD defD pinD rows r h hr h2 hstroke
  obtain ⟨hs, ht, _⟩ := setup_database_row_fields _ _ _ _ _ _ h r hr
  have e1 : r.is_simplified = 2 := ht.trans h2
  have e2 : r.stroke_count.isSome = true := by rw [hs]; exact hstroke
  have hf1 : simplifiedRowFilter r = true := by
    unfold simplifiedRowFilter
    rw [e1, e2]
    rfl
  have hf2 : traditionalRowFilter r = true := by
    unfold traditionalRowFilter
    rw [e1, e2]
    rfl
  constructor
  · unfold get_characters_from_db simplifiedRows
    exact List.mem_map_of_mem _
      ((List.mem_insertionSort rowLE).mpr (List.mem_filter.mpr ⟨hr, hf1⟩))
  · unfold get_traditional_characters_from_db traditionalRows
    exact List.mem_map_of_mem _
      ((List.mem_insertionSort rowLE).mpr (List.mem_filter.mpr ⟨hr, hf2⟩))

/-- Witness for the C10 theorem: the Common character 二 (0x4E8C)
appears in both example lists. -/
theorem claimC10_witness :
    (0x4E8C : Nat) ∈ get_characters_from_db exRows ∧
      (0x4E8C : Nat) ∈ get_traditional_characters_from_db exRows :=
  claimC10_common_in_both_lists exStrokeD exSimpD [] exDefD exPinD exRows
    { char := 0x4E8C, stroke_count := some 2, is_simplified := 2,
      traditional_variant := [], simplified_variant := [],
      definition := [], pinyin := [] }
    (by decide) (by decide) (by decide) (by decide)

end HankanGen
